import Mathlib

/-!
Verification development for the Sia host/renter core: a shallow embedding of
the sectors program cache (modules/host/mdm), the SwapSector instruction, the
payment processor (modules/host/payment.go), the skyfile creation size check
(modules/renter/skyfile.go) and the block template / Merkle branches code
(types/block.go), together with theorems settling the specification claims.

External packages of the repository that are not part of the given sources
(crypto, encoding, modules constants, the account manager, the storage
obligation store) are modelled from the specification; each such definition
carries a doc comment starting with "Modelled from the spec:".
-/

/-! ## Basic data: bytes, roots, hashes

Byte strings are lists of naturals; sector roots (crypto.Hash) are naturals.
The hash functions themselves (crypto.MerkleRoot over sector bytes and
cachedMerkleRoot over a root list) live in the crypto package, outside the
given sources, so every definition and theorem that needs them takes them as
explicit function parameters. -/

/-- Byte strings, as in Go's `[]byte`. -/
abbrev Bytes := List Nat

/-- Sector roots, as in Go's `crypto.Hash` (an opaque 32-byte value). -/
abbrev Root := Nat

/-! ## The sectors program cache (src/unnamed/part_000) -/

/-- The program cache, mirroring the Go struct `sectors`: removed roots,
gained sectors (a map from root to bytes) and the ordered list of sector
roots. The Go maps are modelled as canonical association lists (insert
erases the old binding first) and membership lists. -/
structure Sectors where
  sectorsRemoved : List Root
  sectorsGained : List (Root × Bytes)
  merkleRoots : List Root
deriving DecidableEq

/-- Look a key up in a map modelled as an association list, as Go's
`v, prs := m[k]`. -/
def mapLookup {α β : Type} [DecidableEq α] (k : α) : List (α × β) → Option β
  | [] => none
  | (a, b) :: rest => if a = k then some b else mapLookup k rest

/-- Erase a key from a map modelled as an association list, as Go's
`delete(m, k)`. -/
def eraseKey {α β : Type} [DecidableEq α] (k : α) (m : List (α × β)) : List (α × β) :=
  m.filter (fun p => decide (p.1 ≠ k))

/-- Insert a binding into a map modelled as an association list, as Go's
`m[k] = v` (overwriting any previous binding). -/
def mapInsert {α β : Type} [DecidableEq α] (k : α) (v : β) (m : List (α × β)) :
    List (α × β) :=
  (k, v) :: eraseKey k m

/-- Insert a binding into the gained-sectors map, as Go's `m[k] = v`. -/
def gainedInsert (k : Root) (v : Bytes) (m : List (Root × Bytes)) : List (Root × Bytes) :=
  mapInsert k v m

/-- Insert a root into the removed set, as Go's `m[k] = struct{}{}`. -/
def removedInsert (k : Root) (s : List Root) : List Root :=
  if k ∈ s then s else k :: s

/-- Erase a root from the removed set, as Go's `delete(m, k)`. -/
def removedErase (k : Root) (s : List Root) : List Root :=
  s.filter (fun r => r != k)

/-- Errors of the sectors cache and of the SwapSector instruction; each
constructor corresponds to one error return site of the Go code. -/
inductive MDMErr where
  | badSectorLength (len : Nat)
  | dropTooMany (wanted got : Nat)
  | offsetOutOfBounds (i j : Nat)
  | dataOutOfBounds (offset : Nat)
  | rootNotFound
deriving DecidableEq

/-- Go's `newSectors`: a program cache with empty gained and removed maps
over an initial list of sector roots. -/
def newSectors (roots : List Root) : Sectors :=
  { sectorsRemoved := [], sectorsGained := [], merkleRoots := roots }

/-- Go's `(*sectors).appendSector`. `sectorSize` stands for the external
constant `modules.SectorSize`; `merkleRoot` for `crypto.MerkleRoot`;
`cachedMerkleRoot` for the cached-tree root over the root list. On success
the new cache state and the new contract root are returned; the Go method
returns before mutating anything on failure. -/
def appendSector (sectorSize : Nat) (merkleRoot : Bytes → Root)
    (cachedMerkleRoot : List Root → Root) (s : Sectors) (sectorData : Bytes) :
    Except MDMErr (Sectors × Root) :=
  if sectorData.length ≠ sectorSize then
    .error (.badSectorLength sectorData.length)
  else
    let newRoot := merkleRoot sectorData
    let gained := gainedInsert newRoot sectorData s.sectorsGained
    let removed :=
      if newRoot ∈ s.sectorsRemoved then removedErase newRoot s.sectorsRemoved
      else s.sectorsRemoved
    let roots := s.merkleRoots ++ [newRoot]
    .ok ({ sectorsRemoved := removed, sectorsGained := gained, merkleRoots := roots },
      cachedMerkleRoot roots)

/-- One step of the loop body of `dropSectors` over a dropped root: if the
root is in the gained map it is deleted from it, otherwise it is marked as
removed. -/
def dropStep (gr : List (Root × Bytes) × List Root) (droppedRoot : Root) :
    List (Root × Bytes) × List Root :=
  if (mapLookup droppedRoot gr.1).isSome then (eraseKey droppedRoot gr.1, gr.2)
  else (gr.1, removedInsert droppedRoot gr.2)

/-- The body of Go's `(*sectors).dropSectors`, on the explicit fields of the
receiver. The dropped roots are the suffix of the root list past the
retained prefix; each is deleted from the gained map if present there and
marked as removed otherwise. -/
def dropSectorsCore (cachedMerkleRoot : List Root → Root) (g : List (Root × Bytes))
    (rem roots : List Root) (numSectorsDropped : Nat) : Except MDMErr (Sectors × Root) :=
  if numSectorsDropped > roots.length then
    .error (.dropTooMany numSectorsDropped roots.length)
  else
    .ok ({ sectorsRemoved :=
            ((roots.drop (roots.length - numSectorsDropped)).foldl dropStep (g, rem)).2,
           sectorsGained :=
            ((roots.drop (roots.length - numSectorsDropped)).foldl dropStep (g, rem)).1,
           merkleRoots := roots.take (roots.length - numSectorsDropped) },
      cachedMerkleRoot (roots.take (roots.length - numSectorsDropped)))

/-- Go's `(*sectors).dropSectors`. -/
def dropSectors (cachedMerkleRoot : List Root → Root) (s : Sectors)
    (numSectorsDropped : Nat) : Except MDMErr (Sectors × Root) :=
  dropSectorsCore cachedMerkleRoot s.sectorsGained s.sectorsRemoved s.merkleRoots
    numSectorsDropped

/-- Go's `(*sectors).hasSector`: a linear scan of the root list. -/
def hasSector (s : Sectors) (sectorRoot : Root) : Bool :=
  s.merkleRoots.contains sectorRoot

/-- Go's `(*sectors).readSector`; the host's sector store is the external
parameter `host`. -/
def readSector (host : Root → Except MDMErr Bytes) (s : Sectors) (sectorRoot : Root) :
    Except MDMErr Bytes :=
  if ¬ hasSector s sectorRoot then .error .rootNotFound
  else
    match mapLookup sectorRoot s.sectorsGained with
    | some data => .ok data
    | none => host sectorRoot

/-! ## Claim C4: appendSector -/

/-- Claim C4: `appendSector(bytes)` fails exactly when the data is not
SectorSize bytes long (the cache is unchanged on failure, which the
embedding captures by returning no state in the error case); on success it
appends `MerkleRoot(bytes)` to the root list, stores the bytes in the
gained map under that root, removes the root from the removed set if it
was present, and returns the Merkle root of the updated root list. -/
theorem appendSector_spec (sectorSize : Nat) (merkleRoot : Bytes → Root)
    (cachedMerkleRoot : List Root → Root) (s : Sectors) (sectorData : Bytes) :
    ((∃ e, appendSector sectorSize merkleRoot cachedMerkleRoot s sectorData = .error e) ↔
      sectorData.length ≠ sectorSize)
    ∧ (∀ s' r, appendSector sectorSize merkleRoot cachedMerkleRoot s sectorData = .ok (s', r) →
        s'.merkleRoots = s.merkleRoots ++ [merkleRoot sectorData]
        ∧ mapLookup (merkleRoot sectorData) s'.sectorsGained = some sectorData
        ∧ s'.sectorsRemoved = removedErase (merkleRoot sectorData) s.sectorsRemoved
        ∧ r = cachedMerkleRoot (s.merkleRoots ++ [merkleRoot sectorData])) := by
  constructor
  · constructor
    · rintro ⟨e, he⟩ hlen
      unfold appendSector at he
      rw [if_neg (by simp [hlen])] at he
      exact Except.noConfusion he
    · intro hlen
      exact ⟨.badSectorLength sectorData.length, by unfold appendSector; rw [if_pos hlen]⟩
  · intro s' r h
    unfold appendSector at h
    split at h
    · exact Except.noConfusion h
    · rename_i hlen
      rw [Except.ok.injEq, Prod.mk.injEq] at h
      obtain ⟨hs, hr⟩ := h
      subst hs hr
      refine ⟨rfl, ?_, ?_, rfl⟩
      · simp [gainedInsert, mapInsert, mapLookup]
      · show (if _ ∈ _ then _ else _) = _
        by_cases hmem : merkleRoot sectorData ∈ s.sectorsRemoved
        · rw [if_pos hmem]
        · rw [if_neg hmem, eq_comm]
          unfold removedErase
          rw [List.filter_eq_self]
          intro a ha
          simp only [bne_iff_ne, ne_eq]
          exact fun heq => hmem (heq ▸ ha)

/-! ## Claim C3: append k sectors then drop k -/

/-- Run a list of `appendSector` calls in sequence, stopping at the first
error, as the MDM program runner does with a sequence of Append
instructions. -/
def appendAll (sectorSize : Nat) (merkleRoot : Bytes → Root)
    (cachedMerkleRoot : List Root → Root) : Sectors → List Bytes → Except MDMErr Sectors
  | s, [] => .ok s
  | s, d :: ds =>
    (appendSector sectorSize merkleRoot cachedMerkleRoot s d).bind
      (fun sr => appendAll sectorSize merkleRoot cachedMerkleRoot sr.1 ds)

/-- The program of claim C3: starting from a fresh cache over `base`, append
every element of `datas` and then drop as many sectors as were appended;
the result is the final cache state. -/
def appendThenDrop (sectorSize : Nat) (merkleRoot : Bytes → Root)
    (cachedMerkleRoot : List Root → Root) (base : List Root) (datas : List Bytes) :
    Except MDMErr Sectors :=
  (appendAll sectorSize merkleRoot cachedMerkleRoot (newSectors base) datas).bind
    (fun st => (dropSectors cachedMerkleRoot st datas.length).map Prod.fst)

lemma mapLookup_none_keys {α β : Type} [DecidableEq α] {k : α} :
    ∀ {g : List (α × β)}, mapLookup k g = none → ∀ p ∈ g, p.1 ≠ k := by
  intro g
  induction g with
  | nil => intro _ p hp; cases hp
  | cons q rest ih =>
    obtain ⟨a, b⟩ := q
    intro h p hp
    rw [mapLookup] at h
    by_cases hak : a = k
    · rw [if_pos hak] at h; exact Option.noConfusion h
    · rw [if_neg hak] at h
      rcases List.mem_cons.mp hp with hp | hp
      · subst hp; exact hak
      · exact ih h p hp

lemma eraseKey_of_lookup_none {α β : Type} [DecidableEq α] {k : α} {g : List (α × β)}
    (h : mapLookup k g = none) : eraseKey k g = g := by
  unfold eraseKey
  rw [List.filter_eq_self]
  intro p hp
  exact decide_eq_true (mapLookup_none_keys h p hp)

lemma mapLookup_not_mem_keys {α β : Type} [DecidableEq α] {k : α} :
    ∀ {g : List (α × β)}, k ∉ g.map Prod.fst → mapLookup k g = none := by
  intro g
  induction g with
  | nil => intro _; rfl
  | cons q rest ih =>
    obtain ⟨a, b⟩ := q
    intro h
    rw [mapLookup]
    rw [List.map_cons, List.mem_cons] at h
    push_neg at h
    rw [if_neg (fun hak => h.1 hak.symm)]
    exact ih h.2

lemma mapLookup_append_none {α β : Type} [DecidableEq α] {k : α}
    {l₁ : List (α × β)} (l₂ : List (α × β)) (h : mapLookup k l₁ = none) :
    mapLookup k (l₁ ++ l₂) = mapLookup k l₂ := by
  induction l₁ with
  | nil => rfl
  | cons q rest ih =>
    obtain ⟨a, b⟩ := q
    rw [mapLookup] at h
    rw [List.cons_append, mapLookup]
    by_cases hak : a = k
    · rw [if_pos hak] at h; exact Option.noConfusion h
    · rw [if_neg hak] at h ⊢; exact ih h

/-- After appending `datas` to a cache with an empty removed set, the removed
set is still empty, the roots grew by the roots of the data, and the gained
map accumulated one insert per datum. -/
lemma appendAll_ok (sectorSize : Nat) (merkleRoot : Bytes → Root)
    (cachedMerkleRoot : List Root → Root) :
    ∀ (datas : List Bytes) (s : Sectors),
      (∀ d ∈ datas, d.length = sectorSize) → s.sectorsRemoved = [] →
      appendAll sectorSize merkleRoot cachedMerkleRoot s datas = .ok
        { sectorsRemoved := [],
          sectorsGained := datas.foldl (fun g d => gainedInsert (merkleRoot d) d g)
            s.sectorsGained,
          merkleRoots := s.merkleRoots ++ datas.map merkleRoot } := by
  intro datas
  induction datas with
  | nil =>
    intro s _ hrem
    obtain ⟨rem, g, roots⟩ := s
    simp only at hrem
    subst hrem
    simp [appendAll]
  | cons d ds ih =>
    intro s hlen hrem
    have happ : appendSector sectorSize merkleRoot cachedMerkleRoot s d = .ok
        ({ sectorsRemoved := [],
           sectorsGained := gainedInsert (merkleRoot d) d s.sectorsGained,
           merkleRoots := s.merkleRoots ++ [merkleRoot d] },
          cachedMerkleRoot (s.merkleRoots ++ [merkleRoot d])) := by
      unfold appendSector
      rw [if_neg (by simp [hlen d (List.mem_cons_self d ds)])]
      rw [hrem]
      simp
    rw [appendAll, happ]
    show appendAll sectorSize merkleRoot cachedMerkleRoot
      { sectorsRemoved := [],
        sectorsGained := gainedInsert (merkleRoot d) d s.sectorsGained,
        merkleRoots := s.merkleRoots ++ [merkleRoot d] } ds = _
    rw [ih _ (fun d' hd' => hlen d' (List.mem_cons_of_mem d hd')) rfl]
    simp [List.append_assoc]

/-- Inserting data whose roots are fresh and pairwise distinct lays the
bindings down in reverse order in front of the accumulator. -/
lemma foldl_gainedInsert (merkleRoot : Bytes → Root) :
    ∀ (datas : List Bytes) (g : List (Root × Bytes)),
      (datas.map merkleRoot).Nodup →
      (∀ d ∈ datas, mapLookup (merkleRoot d) g = none) →
      datas.foldl (fun g d => gainedInsert (merkleRoot d) d g) g
        = (datas.map (fun d => (merkleRoot d, d))).reverse ++ g := by
  intro datas
  induction datas with
  | nil => intro g _ _; rfl
  | cons d ds ih =>
    intro g hnodup hfresh
    rw [List.map_cons, List.nodup_cons] at hnodup
    rw [List.foldl_cons]
    have hg : gainedInsert (merkleRoot d) d g = (merkleRoot d, d) :: g := by
      unfold gainedInsert mapInsert
      rw [eraseKey_of_lookup_none (hfresh d (List.mem_cons_self d ds))]
    rw [hg]
    rw [ih ((merkleRoot d, d) :: g) hnodup.2 ?_]
    · simp [List.append_assoc]
    · intro d' hd'
      rw [mapLookup]
      rw [if_neg ?_]
      · exact hfresh d' (List.mem_cons_of_mem d hd')
      · intro heq
        exact hnodup.1 (heq ▸ List.mem_map_of_mem merkleRoot hd')

/-- Dropping a list of pairwise distinct roots whose bindings make up the
whole gained map empties the gained map and leaves the removed set alone. -/
lemma dropFold_cancel :
    ∀ (ps : List (Root × Bytes)) (rem : List Root),
      (ps.map Prod.fst).Nodup →
      (ps.map Prod.fst).foldl dropStep (ps.reverse, rem) = ([], rem) := by
  intro ps
  induction ps with
  | nil => intro rem _; rfl
  | cons q rest ih =>
    obtain ⟨k, v⟩ := q
    intro rem hnodup
    rw [List.map_cons, List.nodup_cons] at hnodup
    have hrev : mapLookup k rest.reverse = none := by
      apply mapLookup_not_mem_keys
      rw [List.map_reverse, List.mem_reverse]
      exact hnodup.1
    have hms : mapLookup k (((k, v) :: rest).reverse) = some v := by
      rw [List.reverse_cons, mapLookup_append_none [(k, v)] hrev, mapLookup, if_pos rfl]
    have herase : eraseKey k (((k, v) :: rest).reverse) = rest.reverse := by
      rw [List.reverse_cons]
      unfold eraseKey
      rw [List.filter_append]
      have h1 : List.filter (fun p => decide (p.1 ≠ k)) rest.reverse = rest.reverse :=
        eraseKey_of_lookup_none hrev
      rw [h1]
      simp
    have hstep : dropStep (((k, v) :: rest).reverse, rem) k = (rest.reverse, rem) := by
      unfold dropStep
      rw [if_pos (by rw [hms]; rfl), herase]
    rw [List.map_cons, List.foldl_cons, hstep]
    exact ih rem hnodup.2

/-- Claim C3 as stated is false: appending the same SectorSize-length data
twice and then dropping two sectors restores the root list and empties the
gained map, but leaves the shared root marked as removed (the first drop
deletes it from the gained map, so the second drop marks it removed). Here
SectorSize is 1 and the appended data is `[7]` both times. -/
theorem appendThenDrop_cex :
    appendThenDrop 1 (fun _ => 0) (fun _ => 0) [] [[7], [7]]
      = .ok { sectorsRemoved := [0], sectorsGained := [], merkleRoots := [] }
    ∧ ([7] : Bytes).length = 1
    ∧ ({ sectorsRemoved := [0], sectorsGained := [], merkleRoots := [] } : Sectors)
        ≠ newSectors [] := by
  refine ⟨?_, rfl, by decide⟩
  rfl

/-- Claim C3, amended: for every program that appends k sectors of
SectorSize-length data with pairwise distinct Merkle roots and then drops
k sectors, the final root list equals the initial base list and the gained
and removed maps are empty (so committing performs no net sector-store
writes or deletions); without the distinctness hypothesis the removed set
can end up non-empty, as `appendThenDrop_cex` shows. -/
theorem appendThenDrop_cancel (sectorSize : Nat) (merkleRoot : Bytes → Root)
    (cachedMerkleRoot : List Root → Root) (base : List Root) (datas : List Bytes)
    (hlen : ∀ d ∈ datas, d.length = sectorSize)
    (hnodup : (datas.map merkleRoot).Nodup) :
    appendThenDrop sectorSize merkleRoot cachedMerkleRoot base datas
      = .ok (newSectors base) := by
  have hgained := foldl_gainedInsert merkleRoot datas [] hnodup (fun d _ => rfl)
  have hkeys : ((datas.map (fun d => (merkleRoot d, d))).map Prod.fst) = datas.map merkleRoot := by
    rw [List.map_map]
    rfl
  have hfold : (datas.map merkleRoot).foldl dropStep
      (datas.foldl (fun g d => gainedInsert (merkleRoot d) d g) [], []) = ([], []) := by
    rw [hgained, List.append_nil, ← hkeys]
    exact dropFold_cancel (datas.map (fun d => (merkleRoot d, d))) [] (by rw [hkeys]; exact hnodup)
  have hmaplen : (datas.map merkleRoot).length = datas.length := by simp
  have hdrop : dropSectorsCore cachedMerkleRoot
      (datas.foldl (fun g d => gainedInsert (merkleRoot d) d g) []) []
      (base ++ datas.map merkleRoot) datas.length
      = .ok (newSectors base, cachedMerkleRoot base) := by
    unfold dropSectorsCore
    rw [if_neg (by simp only [List.length_append, hmaplen]; omega)]
    have hnum : (base ++ datas.map merkleRoot).length - datas.length = base.length := by
      simp only [List.length_append, hmaplen]; omega
    rw [hnum, List.drop_left, List.take_left, hfold]
    rfl
  unfold appendThenDrop
  rw [appendAll_ok sectorSize merkleRoot cachedMerkleRoot datas (newSectors base) hlen rfl]
  show (dropSectorsCore cachedMerkleRoot
      (datas.foldl (fun g d => gainedInsert (merkleRoot d) d g) []) []
      (base ++ datas.map merkleRoot) datas.length).map Prod.fst
    = .ok (newSectors base)
  rw [hdrop]
  rfl

/-- Concrete exercise of `appendThenDrop_cancel`: two appends of distinct
two-byte sectors over base `[5]`, then a drop of two. -/
theorem appendThenDrop_cancel_witness :
    appendThenDrop 2 (fun b => b.headD 0) (fun l => l.length) [5] [[1, 1], [2, 2]]
      = .ok (newSectors [5]) :=
  appendThenDrop_cancel 2 (fun b => b.headD 0) (fun l => l.length) [5] [[1, 1], [2, 2]]
    (by decide) (by decide)

/-! ## Claim C9: gained and removed sectors stay disjoint -/

/-- One cache operation of the claim: the four methods of the `sectors`
struct. -/
inductive SectorOp where
  | append (data : Bytes)
  | drop (n : Nat)
  | has (root : Root)
  | read (root : Root)

/-- Execute one cache operation and keep the resulting state; `hasSector`
and `readSector` do not mutate the cache, and a failing `appendSector` or
`dropSectors` returns before mutating the receiver, so those keep the old
state. -/
def stepOp (sectorSize : Nat) (merkleRoot : Bytes → Root)
    (cachedMerkleRoot : List Root → Root) (host : Root → Except MDMErr Bytes)
    (s : Sectors) : SectorOp → Sectors
  | .append data =>
    match appendSector sectorSize merkleRoot cachedMerkleRoot s data with
    | .ok (s', _) => s'
    | .error _ => s
  | .drop n =>
    match dropSectors cachedMerkleRoot s n with
    | .ok (s', _) => s'
    | .error _ => s
  | .has _ => s
  | .read _ => s

/-- Run a sequence of cache operations from a fresh cache over `base`. -/
def runOps (sectorSize : Nat) (merkleRoot : Bytes → Root)
    (cachedMerkleRoot : List Root → Root) (host : Root → Except MDMErr Bytes)
    (base : List Root) (ops : List SectorOp) : Sectors :=
  ops.foldl (stepOp sectorSize merkleRoot cachedMerkleRoot host) (newSectors base)

/-- Decidable check that no root is both a key of the gained map and a
member of the removed set. -/
def sectorsDisjoint (s : Sectors) : Bool :=
  s.sectorsGained.all (fun p => decide (p.1 ∉ s.sectorsRemoved))

lemma sectorsDisjoint_iff {s : Sectors} :
    sectorsDisjoint s = true ↔ ∀ p ∈ s.sectorsGained, p.1 ∉ s.sectorsRemoved := by
  simp [sectorsDisjoint]

lemma mem_eraseKey {α β : Type} [DecidableEq α] {k : α} {g : List (α × β)} {p : α × β}
    (h : p ∈ eraseKey k g) : p ∈ g :=
  List.mem_of_mem_filter h

/-- The loop of `dropSectors` preserves disjointness of the gained map and
the removed set. -/
lemma dropFold_disjoint :
    ∀ (roots : List Root) (g : List (Root × Bytes)) (rem : List Root),
      (∀ p ∈ g, p.1 ∉ rem) →
      ∀ p ∈ (roots.foldl dropStep (g, rem)).1, p.1 ∉ (roots.foldl dropStep (g, rem)).2 := by
  intro roots
  induction roots with
  | nil => intro g rem h; exact h
  | cons r rest ih =>
    intro g rem h
    rw [List.foldl_cons]
    by_cases hms : (mapLookup r g).isSome
    · have hstep : dropStep (g, rem) r = (eraseKey r g, rem) := by
        unfold dropStep
        rw [if_pos hms]
      rw [hstep]
      exact ih (eraseKey r g) rem (fun p hp => h p (mem_eraseKey hp))
    · have hstep : dropStep (g, rem) r = (g, removedInsert r rem) := by
        unfold dropStep
        rw [if_neg hms]
      rw [hstep]
      apply ih
      intro p hp
      have hnone : mapLookup r g = none := Option.not_isSome_iff_eq_none.mp hms
      have hne : p.1 ≠ r := mapLookup_none_keys hnone p hp
      unfold removedInsert
      by_cases hmem : r ∈ rem
      · rw [if_pos hmem]; exact h p hp
      · rw [if_neg hmem]
        intro hcons
        rcases List.mem_cons.mp hcons with heq | hmem'
        · exact hne heq
        · exact h p hp hmem'

/-- One cache operation preserves disjointness of the gained map and the
removed set. -/
lemma stepOp_disjoint (sectorSize : Nat) (merkleRoot : Bytes → Root)
    (cachedMerkleRoot : List Root → Root) (host : Root → Except MDMErr Bytes)
    (s : Sectors) (op : SectorOp)
    (h : ∀ p ∈ s.sectorsGained, p.1 ∉ s.sectorsRemoved) :
    ∀ p ∈ (stepOp sectorSize merkleRoot cachedMerkleRoot host s op).sectorsGained,
      p.1 ∉ (stepOp sectorSize merkleRoot cachedMerkleRoot host s op).sectorsRemoved := by
  cases op with
  | has root => exact h
  | read root => exact h
  | drop n =>
    cases hd : dropSectors cachedMerkleRoot s n with
    | error e => simp only [stepOp, hd]; exact h
    | ok pr =>
      obtain ⟨s', r⟩ := pr
      simp only [stepOp, hd]
      unfold dropSectors dropSectorsCore at hd
      by_cases hc : n > s.merkleRoots.length
      · rw [if_pos hc] at hd
        exact Except.noConfusion hd
      · rw [if_neg hc, Except.ok.injEq, Prod.mk.injEq] at hd
        obtain ⟨hs', _⟩ := hd
        subst hs'
        exact dropFold_disjoint _ _ _ h
  | append data =>
    cases ha : appendSector sectorSize merkleRoot cachedMerkleRoot s data with
    | error e => simp only [stepOp, ha]; exact h
    | ok pr =>
      obtain ⟨s', r⟩ := pr
      simp only [stepOp, ha]
      unfold appendSector at ha
      split at ha
      · exact Except.noConfusion ha
      · rw [Except.ok.injEq, Prod.mk.injEq] at ha
        obtain ⟨hs', _⟩ := ha
        subst hs'
        intro p hp
        have hpc : p ∈ (merkleRoot data, data) ::
            eraseKey (merkleRoot data) s.sectorsGained := hp
        show p.1 ∉ (if merkleRoot data ∈ s.sectorsRemoved then
          removedErase (merkleRoot data) s.sectorsRemoved else s.sectorsRemoved)
        rcases List.mem_cons.mp hpc with heq | hp'
        · subst heq
          by_cases hmem : merkleRoot data ∈ s.sectorsRemoved
          · rw [if_pos hmem]
            intro hin
            have h2 := (List.mem_filter.mp hin).2
            simp at h2
          · rw [if_neg hmem]
            exact hmem
        · have hpg : p ∈ s.sectorsGained := mem_eraseKey hp'
          by_cases hmem : merkleRoot data ∈ s.sectorsRemoved
          · rw [if_pos hmem]
            intro hin
            exact h p hpg (List.mem_of_mem_filter hin)
          · rw [if_neg hmem]
            exact h p hpg

/-- Claim C9: in every cache reachable from `newSectors` by any sequence of
appendSector, dropSectors, hasSector and readSector operations, the gained
map and the removed set are disjoint: no root is both a key of
sectorsGained and a member of sectorsRemoved. -/
theorem sectors_gained_removed_disjoint (sectorSize : Nat) (merkleRoot : Bytes → Root)
    (cachedMerkleRoot : List Root → Root) (host : Root → Except MDMErr Bytes)
    (base : List Root) (ops : List SectorOp) :
    sectorsDisjoint (runOps sectorSize merkleRoot cachedMerkleRoot host base ops) = true := by
  rw [sectorsDisjoint_iff]
  unfold runOps
  have hgen : ∀ (ops : List SectorOp) (s : Sectors),
      (∀ p ∈ s.sectorsGained, p.1 ∉ s.sectorsRemoved) →
      ∀ p ∈ (ops.foldl (stepOp sectorSize merkleRoot cachedMerkleRoot host) s).sectorsGained,
        p.1 ∉ (ops.foldl (stepOp sectorSize merkleRoot cachedMerkleRoot host) s).sectorsRemoved := by
    intro ops
    induction ops with
    | nil => intro s h; exact h
    | cons op rest ih =>
      intro s h
      rw [List.foldl_cons]
      exact ih _ (stepOp_disjoint sectorSize merkleRoot cachedMerkleRoot host s op h)
  exact hgen ops (newSectors base) (by intro p hp; cases hp)

/-- Concrete exercise of `appendSector_spec`: appending two bytes to a cache
whose base root list is `[9]`, with sector size 2 and toy hash functions. -/
theorem appendSector_spec_witness :
    (({ sectorsRemoved := [], sectorsGained := [(2, [1, 2])],
        merkleRoots := [9, 2] } : Sectors).merkleRoots
        = (newSectors [9]).merkleRoots ++ [2]
      ∧ ([(2, [1, 2])] : List (Root × Bytes)).lookup 2 = some [1, 2]
      ∧ ([] : List Root) = removedErase 2 (newSectors [9]).sectorsRemoved
      ∧ (2 : Root) = 2) := by
  have h := (appendSector_spec 2 (fun b => b.length) (fun l => l.length)
    (newSectors [9]) [1, 2]).2
    { sectorsRemoved := [], sectorsGained := [(2, [1, 2])], merkleRoots := [9, 2] } 2 rfl
  exact h

/-! ## The SwapSector instruction (src/modules/host/mdm/instructionswapsector.go) -/

/-- Modelled from the spec: little-endian decoding of a byte string into an
unsigned 64-bit value (section 4.D). -/
def leUint64 (bytes : List Nat) : Nat :=
  bytes.foldr (fun b acc => b + 256 * acc) 0

/-- Modelled from the spec: `ProgramData.Uint64` (section 4.D). The method's
body among the given sources is an unimplemented stub, flagged by the spec
as a known source defect; the spec defines it as the 8 bytes at the offset
read little-endian, failing when the data ends before offset+8. -/
def uint64At (data : List Nat) (offset : Nat) : Except MDMErr Nat :=
  if offset + 8 ≤ data.length then .ok (leUint64 ((data.drop offset).take 8))
  else .error (.dataOutOfBounds offset)

/-- A half-open leaf range of a Merkle proof, as Go's `crypto.ProofRange`
(fields Start and End; End is spelled `stop` here). -/
structure ProofRange where
  start : Nat
  stop : Nat
deriving DecidableEq

/-- Modelled from the spec: the range diff proof of the external Merkle
engine (section 4.B); the proof object is represented by the inputs the
instruction passes to `crypto.MerkleDiffProof`. -/
structure DiffProof where
  ranges : List ProofRange
  numLeaves : Nat
  updatedLeaves : List Root
  leaves : List Root
deriving DecidableEq

/-- Modelled from the spec: `crypto.MerkleDiffProof`, recording its inputs. -/
def MerkleDiffProof (ranges : List ProofRange) (numLeaves : Nat)
    (updatedLeaves leaves : List Root) : DiffProof :=
  { ranges := ranges, numLeaves := numLeaves, updatedLeaves := updatedLeaves,
    leaves := leaves }

/-- Modelled from the spec: `swapSectors` of the sectors cache
(section 4.C): require both indices in bounds, no-op when they are equal,
otherwise exchange the two positions; returns the new state and the new
cached root. Only the caller of this method is among the given sources. -/
def swapSectors (cachedMerkleRoot : List Root → Root) (s : Sectors) (i j : Nat) :
    Except MDMErr (Sectors × Root) :=
  if i ≥ s.merkleRoots.length ∨ j ≥ s.merkleRoots.length then
    .error (.offsetOutOfBounds i j)
  else if i = j then .ok (s, cachedMerkleRoot s.merkleRoots)
  else
    .ok ({ s with merkleRoots :=
            (s.merkleRoots.set i (s.merkleRoots.getD j 0)).set j (s.merkleRoots.getD i 0) },
      cachedMerkleRoot
        ((s.merkleRoots.set i (s.merkleRoots.getD j 0)).set j (s.merkleRoots.getD i 0)))

/-- The per-instruction output, as the mdm `output` struct: new contract
size, new Merkle root, output bytes (for SwapSector: the marshalled old
leaf hashes, with the external `encoding.Marshal` of a hash list modelled
as the list itself), optional proof and optional error. -/
structure ExecOutput where
  newSize : Nat
  newMerkleRoot : Root
  outputData : List Root
  proof : Option DiffProof
  error : Option MDMErr
deriving DecidableEq

/-- Go's `errOutput`: an output carrying only an error. -/
def errOutput (e : MDMErr) : ExecOutput :=
  { newSize := 0, newMerkleRoot := 0, outputData := [], proof := none, error := some e }

/-- Go's `(*instructionSwapSector).Execute`: fetch the two offsets from the
program data, order them, swap, and emit the proof ranges and pre-swap
leaf hashes when a Merkle proof was requested. Returns the new sectors
state of the program alongside the instruction output (the Go code mutates
`ps.sectors` in place). -/
def executeSwapSector (cachedMerkleRoot : List Root → Root) (pdata : List Nat)
    (sector1Offset sector2Offset : Nat) (staticMerkleProof : Bool) (s : Sectors)
    (prevOutput : ExecOutput) : Sectors × ExecOutput :=
  match uint64At pdata sector1Offset with
  | .error e => (s, errOutput e)
  | .ok o1 =>
    match uint64At pdata sector2Offset with
    | .error e => (s, errOutput e)
    | .ok o2 =>
      let offset1 := if o2 < o1 then o2 else o1
      let offset2 := if o2 < o1 then o1 else o2
      match swapSectors cachedMerkleRoot s offset1 offset2 with
      | .error e => (s, errOutput e)
      | .ok (s', newMerkleRoot) =>
        let newRoots := s'.merkleRoots
        let oldSector1 := newRoots.getD offset2 0
        let oldSector2 := newRoots.getD offset1 0
        let ranges := [({ start := offset1, stop := offset1 + 1 } : ProofRange)] ++
          (if offset1 ≠ offset2 then
            [({ start := offset2, stop := offset2 + 1 } : ProofRange)] else [])
        let oldLeafHashes := [oldSector1] ++
          (if offset1 ≠ offset2 then [oldSector2] else [])
        (s', { newSize := prevOutput.newSize,
               newMerkleRoot := newMerkleRoot,
               outputData := if staticMerkleProof then oldLeafHashes else [],
               proof := if staticMerkleProof then
                 some (MerkleDiffProof ranges newRoots.length [] s'.merkleRoots) else none,
               error := none })

lemma getD_set_self {l : List Root} {i : Nat} {v : Root} (h : i < l.length) :
    (l.set i v).getD i 0 = v := by
  rw [List.getD_eq_getElem?_getD, List.getElem?_set_self', List.getElem?_eq_getElem h]
  rfl

lemma getD_set_ne {l : List Root} {i j : Nat} (h : i ≠ j) (v : Root) :
    (l.set i v).getD j 0 = l.getD j 0 := by
  rw [List.getD_eq_getElem?_getD, List.getElem?_set_ne h, ← List.getD_eq_getElem?_getD]

/-! ## Claim C2: SwapSector proof ranges -/

/-- Claim C2: for a SwapSector execution with the proof flag set whose two
fetched indices are in bounds, with i ≤ j the indices in ascending order,
the execution succeeds and emits a Merkle diff proof over exactly the
single-leaf ranges [i, i+1) and [j, j+1) together with the pre-swap leaf
hashes at i and j; when the indices coincide only one range and one leaf
hash are emitted and the root list is unchanged. -/
theorem swapSector_proof_ranges (cachedMerkleRoot : List Root → Root) (pdata : List Nat)
    (o1 o2 : Nat) (s : Sectors) (prev : ExecOutput) (a b : Nat)
    (h1 : uint64At pdata o1 = .ok a) (h2 : uint64At pdata o2 = .ok b)
    (ha : a < s.merkleRoots.length) (hb : b < s.merkleRoots.length) :
    (executeSwapSector cachedMerkleRoot pdata o1 o2 true s prev).2.error = none
    ∧ (executeSwapSector cachedMerkleRoot pdata o1 o2 true s prev).2.proof.map
        DiffProof.ranges =
        some (if min a b = max a b then [{ start := min a b, stop := min a b + 1 }]
          else [{ start := min a b, stop := min a b + 1 },
                { start := max a b, stop := max a b + 1 }])
    ∧ (executeSwapSector cachedMerkleRoot pdata o1 o2 true s prev).2.outputData =
        (if min a b = max a b then [s.merkleRoots.getD (min a b) 0]
         else [s.merkleRoots.getD (min a b) 0, s.merkleRoots.getD (max a b) 0])
    ∧ (min a b = max a b →
        (executeSwapSector cachedMerkleRoot pdata o1 o2 true s prev).1.merkleRoots
          = s.merkleRoots) := by
  have ho1 : (if b < a then b else a) = min a b := by
    rcases Nat.lt_or_ge b a with hlt | hge
    · rw [if_pos hlt]; exact (Nat.min_eq_right (Nat.le_of_lt hlt)).symm
    · rw [if_neg (Nat.not_lt.mpr hge)]; exact (Nat.min_eq_left hge).symm
  have ho2 : (if b < a then a else b) = max a b := by
    rcases Nat.lt_or_ge b a with hlt | hge
    · rw [if_pos hlt]; exact (Nat.max_eq_left (Nat.le_of_lt hlt)).symm
    · rw [if_neg (Nat.not_lt.mpr hge)]; exact (Nat.max_eq_right hge).symm
  have hmin_lt : min a b < s.merkleRoots.length :=
    lt_of_le_of_lt (Nat.min_le_left a b) ha
  have hmax_lt : max a b < s.merkleRoots.length := Nat.max_lt.mpr ⟨ha, hb⟩
  by_cases hij : min a b = max a b
  · have hswap : swapSectors cachedMerkleRoot s (min a b) (max a b)
        = .ok (s, cachedMerkleRoot s.merkleRoots) := by
      unfold swapSectors
      rw [if_neg (not_or.mpr ⟨Nat.not_le.mpr hmin_lt, Nat.not_le.mpr hmax_lt⟩), if_pos hij]
    rw [hij] at hswap
    refine ⟨?_, ?_, ?_, ?_⟩ <;>
      simp [executeSwapSector, h1, h2, ho1, ho2, hswap, hij, MerkleDiffProof]
  · have hswap : swapSectors cachedMerkleRoot s (min a b) (max a b)
        = .ok ({ s with merkleRoots := ((s.merkleRoots.set (min a b)
              (s.merkleRoots.getD (max a b) 0)).set (max a b)
              (s.merkleRoots.getD (min a b) 0)) },
          cachedMerkleRoot
            ((s.merkleRoots.set (min a b) (s.merkleRoots.getD (max a b) 0)).set (max a b)
              (s.merkleRoots.getD (min a b) 0))) := by
      unfold swapSectors
      rw [if_neg (not_or.mpr ⟨Nat.not_le.mpr hmin_lt, Nat.not_le.mpr hmax_lt⟩), if_neg hij]
    have hgetj : ((s.merkleRoots.set (min a b) (s.merkleRoots.getD (max a b) 0)).set
        (max a b) (s.merkleRoots.getD (min a b) 0)).getD (max a b) 0
        = s.merkleRoots.getD (min a b) 0 :=
      getD_set_self (by rw [List.length_set]; exact hmax_lt)
    have hgeti : ((s.merkleRoots.set (min a b) (s.merkleRoots.getD (max a b) 0)).set
        (max a b) (s.merkleRoots.getD (min a b) 0)).getD (min a b) 0
        = s.merkleRoots.getD (max a b) 0 := by
      rw [getD_set_ne (fun hh => hij hh.symm)]
      exact getD_set_self hmin_lt
    refine ⟨?_, ?_, ?_, ?_⟩ <;>
      simp [executeSwapSector, h1, h2, ho1, ho2, hswap, hij, MerkleDiffProof]
    exact ⟨by simpa using hgetj, by simpa using hgeti⟩

/-- Concrete exercise of `swapSector_proof_ranges`: swapping indices 1 and 0
(fetched little-endian from the program data at offsets 0 and 8) over the
root list `[10, 20]`, with the proof flag set. -/
theorem swapSector_proof_ranges_witness :
    (executeSwapSector (fun l => l.length)
        [1, 0, 0, 0, 0, 0, 0, 0, 0, 0, 0, 0, 0, 0, 0, 0] 0 8 true (newSectors [10, 20])
        { newSize := 0, newMerkleRoot := 0, outputData := [], proof := none,
          error := none }).2.error = none
    ∧ (executeSwapSector (fun l => l.length)
        [1, 0, 0, 0, 0, 0, 0, 0, 0, 0, 0, 0, 0, 0, 0, 0] 0 8 true (newSectors [10, 20])
        { newSize := 0, newMerkleRoot := 0, outputData := [], proof := none,
          error := none }).2.proof.map DiffProof.ranges
        = some [{ start := 0, stop := 1 }, { start := 1, stop := 2 }]
    ∧ (executeSwapSector (fun l => l.length)
        [1, 0, 0, 0, 0, 0, 0, 0, 0, 0, 0, 0, 0, 0, 0, 0] 0 8 true (newSectors [10, 20])
        { newSize := 0, newMerkleRoot := 0, outputData := [], proof := none,
          error := none }).2.outputData = [10, 20] := by
  have h := swapSector_proof_ranges (fun l => l.length)
    [1, 0, 0, 0, 0, 0, 0, 0, 0, 0, 0, 0, 0, 0, 0, 0] 0 8 (newSectors [10, 20])
    { newSize := 0, newMerkleRoot := 0, outputData := [], proof := none, error := none }
    1 0 rfl rfl (by decide) (by decide)
  exact ⟨h.1, h.2.1, h.2.2.1⟩

/-! ## Claim C10: SwapSector is symmetric in its argument offsets -/

/-- Claim C10: for every program state and pair of in-bounds indices fetched
from the data buffer, executing SwapSector with the two instruction
argument offsets exchanged produces the same state and the same output;
the instruction orders the fetched offsets before using them. -/
theorem swapSector_symmetric (cachedMerkleRoot : List Root → Root) (pdata : List Nat)
    (o1 o2 : Nat) (wantProof : Bool) (s : Sectors) (prev : ExecOutput) (a b : Nat)
    (h1 : uint64At pdata o1 = .ok a) (h2 : uint64At pdata o2 = .ok b)
    (ha : a < s.merkleRoots.length) (hb : b < s.merkleRoots.length) :
    executeSwapSector cachedMerkleRoot pdata o1 o2 wantProof s prev
      = executeSwapSector cachedMerkleRoot pdata o2 o1 wantProof s prev := by
  simp only [executeSwapSector, h1, h2]
  have hpair1 : (if b < a then b else a) = (if a < b then a else b) := by
    rcases Nat.lt_trichotomy a b with h | h | h
    · rw [if_neg (by omega), if_pos h]
    · subst h; rfl
    · rw [if_pos h, if_neg (by omega)]
  have hpair2 : (if b < a then a else b) = (if a < b then b else a) := by
    rcases Nat.lt_trichotomy a b with h | h | h
    · rw [if_neg (by omega), if_pos h]
    · subst h; rfl
    · rw [if_pos h, if_neg (by omega)]
  rw [hpair1, hpair2]

/-- Concrete exercise of `swapSector_symmetric`: exchanging the two argument
offsets 0 and 8 (whose fetched indices are 1 and 0) over the root list
`[10, 20]`. -/
theorem swapSector_symmetric_witness :
    executeSwapSector (fun l => l.length)
        [1, 0, 0, 0, 0, 0, 0, 0, 0, 0, 0, 0, 0, 0, 0, 0] 0 8 true (newSectors [10, 20])
        { newSize := 0, newMerkleRoot := 0, outputData := [], proof := none,
          error := none }
      = executeSwapSector (fun l => l.length)
        [1, 0, 0, 0, 0, 0, 0, 0, 0, 0, 0, 0, 0, 0, 0, 0] 8 0 true (newSectors [10, 20])
        { newSize := 0, newMerkleRoot := 0, outputData := [], proof := none,
          error := none } :=
  swapSector_symmetric (fun l => l.length)
    [1, 0, 0, 0, 0, 0, 0, 0, 0, 0, 0, 0, 0, 0, 0, 0] 0 8 true (newSectors [10, 20])
    { newSize := 0, newMerkleRoot := 0, outputData := [], proof := none, error := none }
    1 0 rfl rfl (by decide) (by decide)

/-! ## The payment processor (src/modules/host/payment.go)

Currencies are naturals (the Go `types.Currency` is an unsigned big
integer whose `Sub` is only used after the verifier has ruled out
underflow). Stream reads are modelled by passing the already-decoded
request; stream writes are collected in a list. The storage obligation
store, the account manager, the revision verifier `verifyPaymentRevision`
and the signing helpers live outside the given sources and are modelled
from the spec. -/

abbrev Currency := Nat

abbrev AccountID := String

/-- Go's `types.SiacoinOutput`: a value and a recipient unlock hash. -/
structure SiacoinOutput where
  value : Currency
  unlockHash : Nat
deriving DecidableEq

/-- Go's `types.FileContractRevision`, restricted to the fields the payment
path reads: parent contract id, revision number, the proof-window end used
by the expiry check, and the two output vectors. -/
structure FileContractRevision where
  parentID : Nat
  newRevisionNumber : Nat
  newWindowEnd : Nat
  newValidProofOutputs : List SiacoinOutput
  newMissedProofOutputs : List SiacoinOutput
deriving DecidableEq

/-- Modelled from the spec: `ValidHostPayout` (types package, not among the
given sources): the renter's valid output sits at index 0 and the host's
at index 1; the void missed output at index 2 (section 8, scenario 2). -/
def validHostPayout (rev : FileContractRevision) : Currency :=
  (rev.newValidProofOutputs.getD 1 { value := 0, unlockHash := 0 }).value

/-- Modelled from the spec: the renter's valid payout (index 0). -/
def validRenterPayout (rev : FileContractRevision) : Currency :=
  (rev.newValidProofOutputs.getD 0 { value := 0, unlockHash := 0 }).value

/-- Modelled from the spec: the host's missed output value (index 1). -/
def missedHostValue (rev : FileContractRevision) : Currency :=
  (rev.newMissedProofOutputs.getD 1 { value := 0, unlockHash := 0 }).value

/-- Modelled from the spec: the void missed output value (index 2). -/
def missedVoidValue (rev : FileContractRevision) : Currency :=
  (rev.newMissedProofOutputs.getD 2 { value := 0, unlockHash := 0 }).value

/-- Go's `modules.PayByContractRequest`. -/
structure PayByContractRequest where
  contractID : Nat
  newRevisionNumber : Nat
  newValidProofValues : List Currency
  newMissedProofValues : List Currency
  signature : Nat
deriving DecidableEq

/-- Go's `modules.PayByEphemeralAccountRequest` (the signed withdrawal
message plus signature and priority). -/
structure PayByEphemeralAccountRequest where
  account : AccountID
  amount : Currency
  expiry : Nat
  nonce : Nat
  priority : Int
  signature : Nat
deriving DecidableEq

/-- The payment request envelope: the kind tag (1 = ByEphemeralAccount,
2 = ByContract per the spec's wire table) followed by the kind-specific
body; both bodies are carried so that the dispatcher can read the one it
needs, modelling the stream. -/
structure PaymentRequest where
  kind : Nat
  eaBody : PayByEphemeralAccountRequest
  contractBody : PayByContractRequest
deriving DecidableEq

/-- Wire tag of `modules.PayByEphemeralAccount`. -/
def payByEphemeralAccount : Nat := 1

/-- Wire tag of `modules.PayByContract`. -/
def payByContract : Nat := 2

/-- Go's `paymentDetails` struct: account id, amount paid and added
collateral, as returned by `newPaymentDetails`. -/
structure PaymentDetails where
  account : AccountID
  amount : Currency
  addedCollateral : Currency
deriving DecidableEq

/-- Go's `newPaymentDetails`. -/
def newPaymentDetails (account : AccountID) (amountPaid addedCollateral : Currency) :
    PaymentDetails :=
  { account := account, amount := amountPaid, addedCollateral := addedCollateral }

/-- The failure cases of the revision verifier, one per failure listed in
the spec (section 4.F). -/
inductive VerifyErr where
  | contractExpired
  | badRevisionNumber
  | outputCountMismatch
  | recipientChanged
  | underflow
  | transferMismatch
  | collateralMismatch
deriving DecidableEq

/-- The failure cases of the payment processor; `indexOutOfRange` stands for
the Go runtime fault of indexing past the end of a slice in
`revisionFromRequest`. -/
inductive PayErr where
  | unknownMethod (kind : Nat)
  | obligationNotFound
  | noRecentRevision
  | indexOutOfRange
  | invalidRevision (e : VerifyErr)
  | withdrawFailed
deriving DecidableEq

/-- Messages the host writes back over the stream. -/
inductive StreamWrite where
  | contractResponse (hostSignature : Nat)
  | eaResponse (amount : Currency)
  | errorReply (e : PayErr)
deriving DecidableEq

/-- Go's `types.TransactionSignature` as built by `signatureFromRequest`:
parent id, public key index and signature (covered fields fixed to the
first file-contract revision). -/
structure TransactionSignature where
  parentID : Nat
  publicKeyIndex : Nat
  signature : Nat
deriving DecidableEq

/-- Modelled from the spec: the storage obligation record keeps the revision
transaction set, the latest accepted revision with its signatures
(section 3). -/
structure StorageObligation where
  revisionTxnSet : List (FileContractRevision × List Nat)
deriving DecidableEq

/-- Modelled from the spec: `recentRevision` of the storage obligation
returns the latest accepted revision of the obligation, failing when there
is none. -/
def recentRevision (so : StorageObligation) : Except PayErr FileContractRevision :=
  match so.revisionTxnSet with
  | (r, _) :: _ => .ok r
  | [] => .error .noRecentRevision

/-- The host state the payment path touches: the obligation registry keyed
by contract id, the ephemeral account balances, the block height and the
host secret key. -/
structure HostState where
  obligations : List (Nat × StorageObligation)
  accounts : List (AccountID × Currency)
  blockHeight : Nat
  secretKey : Nat
deriving DecidableEq

/-- Go's `revisionFromRequest` builds one output vector: for each requested
value it takes the unlock hash of the recent revision's output at the same
index; indexing past the end of the recent outputs is the Go runtime
fault, modelled as `none`. -/
def outputsFromValues : List Currency → List SiacoinOutput → Option (List SiacoinOutput)
  | [], _ => some []
  | v :: vs, o :: os =>
    (outputsFromValues vs os).map (fun rest => { value := v, unlockHash := o.unlockHash } :: rest)
  | _ :: _, [] => none

/-- Go's `revisionFromRequest`: copy the recent revision, overwrite the
revision number and rebuild both output vectors from the request's value
vectors, preserving the recent unlock hashes element-wise. -/
def revisionFromRequest (recent : FileContractRevision) (pbcr : PayByContractRequest) :
    Option FileContractRevision :=
  (outputsFromValues pbcr.newValidProofValues recent.newValidProofOutputs).bind
    (fun valid => (outputsFromValues pbcr.newMissedProofValues
        recent.newMissedProofOutputs).map
      (fun missed =>
        { recent with
          newRevisionNumber := pbcr.newRevisionNumber,
          newValidProofOutputs := valid,
          newMissedProofOutputs := missed }))

/-- Go's `signatureFromRequest`: the renter's transaction signature over the
revision. -/
def signatureFromRequest (recent : FileContractRevision) (pbcr : PayByContractRequest) :
    TransactionSignature :=
  { parentID := recent.parentID, publicKeyIndex := 0, signature := pbcr.signature }

/-- Modelled from the spec: the host's signature over a revision; signing
primitives are outside the scope of the spec (section 1), so the signature
is an opaque deterministic function of the key and the revision number. -/
def hostSign (secretKey : Nat) (rev : FileContractRevision) : Nat :=
  Nat.pair secretKey rev.newRevisionNumber

/-- Modelled from the spec: `verifyPaymentRevision` (section 4.F). The
function is called by `verifyPayByContractRevision` with an expected
exchange of zero; only the callers are among the given sources. Checks:
contract not expired, revision number strictly increased, output counts
unchanged, recipients unchanged, no underflow in any payout delta, the
renter debited exactly what the host is credited (and at least the
expected exchange), and the host's missed payout decreased by exactly the
void output's increase. -/
def verifyPaymentRevision (current payment : FileContractRevision)
    (blockHeight : Nat) (expected : Currency) : Except VerifyErr Unit :=
  if blockHeight > current.newWindowEnd then .error .contractExpired
  else if payment.newRevisionNumber ≤ current.newRevisionNumber then
    .error .badRevisionNumber
  else if payment.newValidProofOutputs.length ≠ current.newValidProofOutputs.length
      ∨ payment.newMissedProofOutputs.length ≠ current.newMissedProofOutputs.length then
    .error .outputCountMismatch
  else if payment.newValidProofOutputs.map SiacoinOutput.unlockHash
        ≠ current.newValidProofOutputs.map SiacoinOutput.unlockHash
      ∨ payment.newMissedProofOutputs.map SiacoinOutput.unlockHash
        ≠ current.newMissedProofOutputs.map SiacoinOutput.unlockHash then
    .error .recipientChanged
  else if validRenterPayout payment > validRenterPayout current
      ∨ validHostPayout payment < validHostPayout current
      ∨ missedHostValue payment > missedHostValue current
      ∨ missedVoidValue payment < missedVoidValue current then
    .error .underflow
  else if validRenterPayout current - validRenterPayout payment
      ≠ validHostPayout payment - validHostPayout current then
    .error .transferMismatch
  else if validHostPayout payment - validHostPayout current < expected then
    .error .transferMismatch
  else if missedHostValue current - missedHostValue payment
      ≠ missedVoidValue payment - missedVoidValue current then
    .error .collateralMismatch
  else .ok ()

/-- Go's `verifyPayByContractRevision`: verify the payment revision and
return the amount transferred and the collateral moved; the subtractions
are safe because the verifier ruled out underflow. -/
def verifyPayByContractRevision (current payment : FileContractRevision)
    (blockHeight : Nat) : Except VerifyErr (Currency × Currency) :=
  (verifyPaymentRevision current payment blockHeight 0).map
    (fun _ => (validHostPayout payment - validHostPayout current,
      missedHostValue current - missedHostValue payment))

/-- Go's `managedPayByContract`: look the obligation up, take its recent
revision, build the payment revision from the request, verify it, co-sign,
store the new revision transaction set, reply with the host signature and
return the payment details. Returns the final host state, the stream
writes and the result. -/
def managedPayByContract (st : HostState) (pbcr : PayByContractRequest) :
    HostState × List StreamWrite × Except PayErr PaymentDetails :=
  match mapLookup pbcr.contractID st.obligations with
  | none => (st, [], .error .obligationNotFound)
  | some so =>
    match recentRevision so with
    | .error e => (st, [], .error e)
    | .ok currentRevision =>
      match revisionFromRequest currentRevision pbcr with
      | none => (st, [], .error .indexOutOfRange)
      | some paymentRevision =>
        match verifyPayByContractRevision currentRevision paymentRevision st.blockHeight with
        | .error e => (st, [], .error (.invalidRevision e))
        | .ok (amount, collateral) =>
          let renterSig := signatureFromRequest currentRevision pbcr
          let hostSig := hostSign st.secretKey paymentRevision
          let so' : StorageObligation :=
            { revisionTxnSet := [(paymentRevision, [renterSig.signature, hostSig])] }
          ({ st with obligations := mapInsert pbcr.contractID so' st.obligations },
            [.contractResponse hostSig],
            .ok (newPaymentDetails "" amount collateral))

/-- Modelled from the spec: the account manager's `callWithdraw`
(section 4.G): it fails when the account is unknown, the balance is too
small or the message expired, and otherwise debits the account. -/
def callWithdraw (st : HostState) (req : PayByEphemeralAccountRequest) :
    Except PayErr HostState :=
  match mapLookup req.account st.accounts with
  | none => .error .withdrawFailed
  | some balance =>
    if balance < req.amount ∨ req.expiry < st.blockHeight then .error .withdrawFailed
    else .ok { st with accounts := mapInsert req.account (balance - req.amount) st.accounts }

/-- Go's `staticPayByEphemeralAccount`: withdraw from the account, reply
with the amount and return the details; ephemeral payments move no
collateral. -/
def staticPayByEphemeralAccount (st : HostState) (req : PayByEphemeralAccountRequest) :
    HostState × List StreamWrite × Except PayErr PaymentDetails :=
  match callWithdraw st req with
  | .error e => (st, [], .error e)
  | .ok st' => (st', [.eaResponse req.amount],
      .ok (newPaymentDetails req.account req.amount 0))

/-- Go's `(*Host).ProcessPayment`: dispatch on the payment kind; an unknown
kind processes nothing and returns the unknown-payment-method error
carrying the kind. -/
def processPayment (st : HostState) (pr : PaymentRequest) :
    HostState × List StreamWrite × Except PayErr PaymentDetails :=
  if pr.kind = payByEphemeralAccount then staticPayByEphemeralAccount st pr.eaBody
  else if pr.kind = payByContract then managedPayByContract st pr.contractBody
  else (st, [], .error (.unknownMethod pr.kind))

/-- Modelled from the spec: the RPC layer around `ProcessPayment` replies to
the renter with the returned error over the stream before closing it
(sections 4.G and 7); on success the replies were already written by the
payment handler. -/
def handlePaymentRPC (st : HostState) (pr : PaymentRequest) :
    HostState × List StreamWrite × Except PayErr PaymentDetails :=
  match processPayment st pr with
  | (st', writes, .error e) => (st', writes ++ [.errorReply e], .error e)
  | ok => ok

/-! ## Claim C5: unknown payment method -/

/-- An empty host state used by the concrete payment examples. -/
def emptyHostState : HostState where
  obligations := []
  accounts := []
  blockHeight := 0
  secretKey := 0

/-- A placeholder ephemeral-account body for requests that never read it. -/
def dummyEABody : PayByEphemeralAccountRequest where
  account := ""
  amount := 0
  expiry := 0
  nonce := 0
  priority := 0
  signature := 0

/-- A placeholder contract body for requests that never read it. -/
def dummyContractBody : PayByContractRequest where
  contractID := 0
  newRevisionNumber := 0
  newValidProofValues := []
  newMissedProofValues := []
  signature := 0

/-- Claim C5: a payment request whose kind is neither ByEphemeralAccount nor
ByContract processes no payment (the host state is unchanged), the
unknown-payment-method error carrying the kind is replied on the stream,
and the same error is returned. -/
theorem processPayment_unknown_method (st : HostState) (pr : PaymentRequest)
    (h1 : pr.kind ≠ payByEphemeralAccount) (h2 : pr.kind ≠ payByContract) :
    handlePaymentRPC st pr
      = (st, [.errorReply (.unknownMethod pr.kind)], .error (.unknownMethod pr.kind)) := by
  unfold handlePaymentRPC processPayment
  rw [if_neg h1, if_neg h2]
  rfl

/-- Concrete exercise of `processPayment_unknown_method` at kind 3. -/
theorem processPayment_unknown_method_witness :
    handlePaymentRPC emptyHostState
        { kind := 3, eaBody := dummyEABody, contractBody := dummyContractBody }
      = (emptyHostState, [.errorReply (.unknownMethod 3)],
          .error (.unknownMethod 3)) :=
  processPayment_unknown_method emptyHostState
    { kind := 3, eaBody := dummyEABody, contractBody := dummyContractBody }
    (by decide) (by decide)

/-! ## Claim C1: contract payment details -/

/-- Claim C1: every contract payment accepted by ProcessPayment (kind
ByContract) returns payment details with an empty account id, an amount
equal to the new revision's valid host payout minus the current revision's
valid host payout, and a collateral equal to the current revision's missed
host output value minus the new revision's; `cur` is the obligation's most
recent revision and `new` the revision built from the request. -/
theorem payByContract_details (st : HostState) (pr : PaymentRequest)
    (so : StorageObligation) (cur new : FileContractRevision)
    (st' : HostState) (writes : List StreamWrite) (pd : PaymentDetails)
    (hk : pr.kind = payByContract)
    (hso : mapLookup pr.contractBody.contractID st.obligations = some so)
    (hcur : recentRevision so = .ok cur)
    (hnew : revisionFromRequest cur pr.contractBody = some new)
    (hrun : processPayment st pr = (st', writes, .ok pd)) :
    pd.account = ""
    ∧ pd.amount = validHostPayout new - validHostPayout cur
    ∧ pd.addedCollateral = missedHostValue cur - missedHostValue new := by
  unfold processPayment at hrun
  rw [hk, if_neg (by decide), if_pos rfl] at hrun
  unfold managedPayByContract at hrun
  simp only [hso, hcur, hnew] at hrun
  cases hv : verifyPayByContractRevision cur new st.blockHeight with
  | error e =>
    simp only [hv] at hrun
    rw [Prod.mk.injEq, Prod.mk.injEq] at hrun
    exact absurd hrun.2.2 (by simp)
  | ok ac =>
    obtain ⟨amount, collateral⟩ := ac
    simp only [hv] at hrun
    rw [Prod.mk.injEq, Prod.mk.injEq] at hrun
    have hpd : newPaymentDetails "" amount collateral = pd := Except.ok.inj hrun.2.2
    unfold verifyPayByContractRevision at hv
    cases hvp : verifyPaymentRevision cur new st.blockHeight 0 with
    | error e =>
      rw [hvp] at hv
      exact absurd hv (by simp [Except.map])
    | ok u =>
      rw [hvp] at hv
      simp only [Except.map] at hv
      rw [Except.ok.injEq, Prod.mk.injEq] at hv
      rw [← hpd]
      exact ⟨rfl, hv.1.symm, hv.2.symm⟩

/-- The current revision of the spec's contract-payment scenario
(section 8, scenario 2): revision 7, valid outputs renter 2000 and host
1000, missed outputs renter 500, host 500 and void 100. -/
def scenarioCurrent : FileContractRevision where
  parentID := 0
  newRevisionNumber := 7
  newWindowEnd := 100
  newValidProofOutputs := [⟨2000, 11⟩, ⟨1000, 22⟩]
  newMissedProofOutputs := [⟨500, 11⟩, ⟨500, 22⟩, ⟨100, 33⟩]

/-- The payment revision the scenario's request builds: revision 8, valid
outputs 1500/1500, missed outputs 500/300/300. -/
def scenarioPayment : FileContractRevision where
  parentID := 0
  newRevisionNumber := 8
  newWindowEnd := 100
  newValidProofOutputs := [⟨1500, 11⟩, ⟨1500, 22⟩]
  newMissedProofOutputs := [⟨500, 11⟩, ⟨300, 22⟩, ⟨300, 33⟩]

/-- The scenario's obligation: the current revision is the recent one. -/
def scenarioObligation : StorageObligation where
  revisionTxnSet := [(scenarioCurrent, [])]

/-- The scenario's host state: one obligation under contract id 42. -/
def scenarioState : HostState where
  obligations := [(42, scenarioObligation)]
  accounts := []
  blockHeight := 10
  secretKey := 99

/-- The scenario's request: pay 500, move 200 collateral. -/
def scenarioContractBody : PayByContractRequest where
  contractID := 42
  newRevisionNumber := 8
  newValidProofValues := [1500, 1500]
  newMissedProofValues := [500, 300, 300]
  signature := 77

/-- The scenario's host state after the payment: the obligation stores the
payment revision with both signatures. -/
def scenarioFinalState : HostState where
  obligations := [(42, { revisionTxnSet :=
    [(scenarioPayment, [77, Nat.pair 99 8])] })]
  accounts := []
  blockHeight := 10
  secretKey := 99

/-- Concrete exercise of `payByContract_details`: the spec's scenario 2, a
payment of 500 with 200 collateral over revision 7. -/
theorem payByContract_details_witness :
    (newPaymentDetails "" 500 200).account = ""
    ∧ (newPaymentDetails "" 500 200).amount
        = validHostPayout scenarioPayment - validHostPayout scenarioCurrent
    ∧ (newPaymentDetails "" 500 200).addedCollateral
        = missedHostValue scenarioCurrent - missedHostValue scenarioPayment :=
  payByContract_details scenarioState
    { kind := 2, eaBody := dummyEABody, contractBody := scenarioContractBody }
    scenarioObligation scenarioCurrent scenarioPayment
    scenarioFinalState [.contractResponse (Nat.pair 99 8)] (newPaymentDetails "" 500 200)
    rfl rfl rfl rfl rfl

/-! ## Claim C8: revisionFromRequest indexes before the count check -/

lemma outputsFromValues_isSome :
    ∀ (vs : List Currency) (os : List SiacoinOutput),
      vs.length ≤ os.length → (outputsFromValues vs os).isSome = true := by
  intro vs
  induction vs with
  | nil => intro os _; rfl
  | cons v vs ih =>
    intro os hle
    cases os with
    | nil => exact absurd hle (by simp)
    | cons o os =>
      rw [outputsFromValues]
      have hrec := ih os (by simpa using hle)
      cases hb : outputsFromValues vs os with
      | none => rw [hb] at hrec; exact absurd hrec (by simp)
      | some rest => rfl

lemma outputsFromValues_none :
    ∀ (vs : List Currency) (os : List SiacoinOutput),
      os.length < vs.length → outputsFromValues vs os = none := by
  intro vs
  induction vs with
  | nil => intro os h; exact absurd h (by simp)
  | cons v vs ih =>
    intro os h
    cases os with
    | nil => rfl
    | cons o os =>
      rw [outputsFromValues, ih os (by simpa using h)]
      rfl

/-- Claim C8: processing a ByContract payment is total only when the
request's value vectors are no longer than the recent revision's output
vectors: under that precondition the revision builds, while a longer valid
or missed value vector makes `revisionFromRequest` index out of range
before any output-count check can run, so `managedPayByContract` ends in
the runtime fault and never in the output-count-mismatch error. -/
theorem revisionFromRequest_oob (st : HostState) (pbcr : PayByContractRequest)
    (so : StorageObligation) (cur : FileContractRevision)
    (hso : mapLookup pbcr.contractID st.obligations = some so)
    (hcur : recentRevision so = .ok cur) :
    (pbcr.newValidProofValues.length ≤ cur.newValidProofOutputs.length →
      pbcr.newMissedProofValues.length ≤ cur.newMissedProofOutputs.length →
      (revisionFromRequest cur pbcr).isSome = true)
    ∧ (cur.newValidProofOutputs.length < pbcr.newValidProofValues.length →
        managedPayByContract st pbcr = (st, [], .error .indexOutOfRange))
    ∧ (cur.newMissedProofOutputs.length < pbcr.newMissedProofValues.length →
        managedPayByContract st pbcr = (st, [], .error .indexOutOfRange)) := by
  refine ⟨?_, ?_, ?_⟩
  · intro hval hmis
    obtain ⟨valid, hv⟩ := Option.isSome_iff_exists.mp
      (outputsFromValues_isSome _ _ hval)
    obtain ⟨missed, hm⟩ := Option.isSome_iff_exists.mp
      (outputsFromValues_isSome _ _ hmis)
    unfold revisionFromRequest
    rw [hv, hm]
    rfl
  · intro hlt
    have hnone : revisionFromRequest cur pbcr = none := by
      unfold revisionFromRequest
      rw [outputsFromValues_none _ _ hlt]
      rfl
    unfold managedPayByContract
    simp only [hso, hcur, hnone]
  · intro hlt
    have hnone : revisionFromRequest cur pbcr = none := by
      unfold revisionFromRequest
      cases hb : outputsFromValues pbcr.newValidProofValues cur.newValidProofOutputs with
      | none => rfl
      | some valid =>
        rw [outputsFromValues_none _ _ hlt]
        rfl
    unfold managedPayByContract
    simp only [hso, hcur, hnone]

/-- A request against the scenario obligation whose valid value vector is
one longer than the current revision's valid output vector. -/
def oversizedContractBody : PayByContractRequest where
  contractID := 42
  newRevisionNumber := 8
  newValidProofValues := [1500, 1500, 1500]
  newMissedProofValues := [500, 300, 300]
  signature := 77

/-- Concrete exercise of `revisionFromRequest_oob`: a request with three
valid values against a revision with two valid outputs faults instead of
reporting an output-count mismatch. -/
theorem revisionFromRequest_oob_witness :
    managedPayByContract scenarioState oversizedContractBody
      = (scenarioState, [], .error .indexOutOfRange) :=
  (revisionFromRequest_oob scenarioState oversizedContractBody
    scenarioObligation scenarioCurrent rfl rfl).2.1 (by decide)

/-! ## Skyfile creation (src/modules/renter/skyfile.go)

`managedCreateSkylinkFromFileNode` runs a sequence of checks and effects;
everything it calls (metadata validation and marshalling, the blocklists,
the cipher key and erasure-code accessors of the file node, fanout
encoding, base-sector building, encryption, skylink construction and the
uploader) lives outside the given sources, so the environment bundles their
results; the function body itself mirrors the Go control flow, and the
side effects it triggers are collected in order. -/

/-- The error cases of skylink creation, one per error return of the Go
function; `metadataTooBig` is `ErrMetadataTooBig`. -/
inductive SkyErr where
  | invalidMetadata
  | skylinkBlocked
  | cipherKeyNotSupported
  | unsupportedErasureCode
  | metadataBytesFailed
  | fanoutFailed
  | metadataTooBig
  | encryptFailed
  | skylinkBuildFailed
  | addSkylinkFailed
  | uploadFailed
deriving DecidableEq

/-- The externally visible side effects of skylink creation, in program
order. -/
inductive SkyEffect where
  | deleteFile
  | buildBaseSector
  | encryptBaseSector
  | addSkylink
  | uploadBaseSector
deriving DecidableEq

/-- The results of every external call `managedCreateSkylinkFromFileNode`
makes, bundled as its environment: the modules constants SectorSize and
SkyfileLayoutSize, the metadata validation verdict, the file-node
blocklist verdict, the master key and layout key-data lengths, the
erasure-code type check, the marshalled metadata, the encoded fanout, the
encryption settings, the skylink construction result, the dry-run flag,
the skylink blocklist verdict and the add-skylink and upload outcomes. -/
structure SkyfileEnv where
  sectorSize : Nat
  skyfileLayoutSize : Nat
  validMetadata : Bool
  fileNodeBlocked : Bool
  masterKeyLen : Nat
  keyDataLen : Nat
  ecTypeOK : Bool
  metadataBytes : Except Unit (List Nat)
  fanoutBytes : Except Unit (List Nat)
  encryptionEnabled : Bool
  encryptOK : Bool
  newSkylink : Except Unit Nat
  dryRun : Bool
  skylinkBlocked : Bool
  addSkylinkOK : Bool
  uploadOK : Bool

/-- The steps after the base sector exists: encrypt if enabled, build the
skylink, honour the dry run, consult the blocklist, record the skylink on
the file node and upload the base sector. -/
def createSkylinkTail (env : SkyfileEnv) (effects : List SkyEffect) :
    Except SkyErr Nat × List SkyEffect :=
  if env.encryptionEnabled ∧ env.encryptOK = false then
    (.error .encryptFailed, effects)
  else
    let effects := if env.encryptionEnabled then effects ++ [.encryptBaseSector]
      else effects
    match env.newSkylink with
    | .error _ => (.error .skylinkBuildFailed, effects)
    | .ok skylink =>
      if env.dryRun then (.ok skylink, effects)
      else if env.skylinkBlocked then (.error .skylinkBlocked, effects ++ [.deleteFile])
      else if env.addSkylinkOK = false then
        (.error .addSkylinkFailed, effects ++ [.addSkylink])
      else if env.uploadOK = false then
        (.error .uploadFailed, effects ++ [.addSkylink, .uploadBaseSector])
      else (.ok skylink, effects ++ [.addSkylink, .uploadBaseSector])

/-- Go's `managedCreateSkylinkFromFileNode`: validate the metadata, consult
the file-node blocklist, check the cipher key fits the layout and the
erasure code is supported, marshal the metadata, encode the fanout, check
`SkyfileLayoutSize + len(metadataBytes) + len(fanoutBytes) ≤ SectorSize`
(otherwise ErrMetadataTooBig), and only then build the base sector and
continue to the upload. -/
def managedCreateSkylinkFromFileNode (env : SkyfileEnv) :
    Except SkyErr Nat × List SkyEffect :=
  if env.validMetadata = false then (.error .invalidMetadata, [])
  else if env.fileNodeBlocked then (.error .skylinkBlocked, [.deleteFile])
  else if env.keyDataLen < env.masterKeyLen then (.error .cipherKeyNotSupported, [])
  else if env.ecTypeOK = false then (.error .unsupportedErasureCode, [])
  else
    match env.metadataBytes with
    | .error _ => (.error .metadataBytesFailed, [])
    | .ok metadataBytes =>
      match env.fanoutBytes with
      | .error _ => (.error .fanoutFailed, [])
      | .ok fanoutBytes =>
        if env.skyfileLayoutSize + metadataBytes.length + fanoutBytes.length
            > env.sectorSize then
          (.error .metadataTooBig, [])
        else
          createSkylinkTail env [.buildBaseSector]

/-! ## Claim C6: the metadata-too-big check -/

lemma createSkylinkTail_no_metadataTooBig (env : SkyfileEnv) (effects : List SkyEffect) :
    (createSkylinkTail env effects).1 ≠ .error .metadataTooBig := by
  unfold createSkylinkTail
  by_cases h1 : env.encryptionEnabled ∧ env.encryptOK = false
  · rw [if_pos h1]; intro h; cases h
  · rw [if_neg h1]
    cases env.newSkylink with
    | error e => intro h; cases h
    | ok skylink =>
      by_cases h2 : env.dryRun
      · simp only [h2]; intro h; cases h
      · simp only [h2]
        by_cases h3 : env.skylinkBlocked
        · simp only [h3]; intro h; cases h
        · simp only [h3]
          by_cases h4 : env.addSkylinkOK = false
          · simp only [h4]; intro h; cases h
          · simp only [h4]
            by_cases h5 : env.uploadOK = false
            · simp only [h5]; intro h; cases h
            · simp only [h5]; intro h; cases h

/-- Claim C6: with the earlier checks passing (valid metadata, file node not
blocked, cipher key fits, supported erasure code, metadata and fanout
encoded), skylink creation fails with the metadata-too-big error exactly
when the layout size plus the marshalled metadata size plus the fanout
size exceeds SectorSize, and in that case no base sector is built and
nothing is uploaded. -/
theorem skyfile_metadata_too_big (env : SkyfileEnv) (mbytes fbytes : List Nat)
    (hvalid : env.validMetadata = true) (hblocked : env.fileNodeBlocked = false)
    (hkey : env.masterKeyLen ≤ env.keyDataLen) (hec : env.ecTypeOK = true)
    (hmeta : env.metadataBytes = .ok mbytes) (hfanout : env.fanoutBytes = .ok fbytes) :
    ((managedCreateSkylinkFromFileNode env).1 = .error .metadataTooBig
      ↔ env.skyfileLayoutSize + mbytes.length + fbytes.length > env.sectorSize)
    ∧ (env.skyfileLayoutSize + mbytes.length + fbytes.length > env.sectorSize →
        SkyEffect.buildBaseSector ∉ (managedCreateSkylinkFromFileNode env).2
        ∧ SkyEffect.uploadBaseSector ∉ (managedCreateSkylinkFromFileNode env).2) := by
  have hrun : managedCreateSkylinkFromFileNode env =
      (if env.skyfileLayoutSize + mbytes.length + fbytes.length > env.sectorSize then
        ((.error .metadataTooBig : Except SkyErr Nat), ([] : List SkyEffect))
      else createSkylinkTail env [.buildBaseSector]) := by
    unfold managedCreateSkylinkFromFileNode
    rw [hvalid, hblocked]
    rw [if_neg (by simp), if_neg (by simp)]
    rw [if_neg (Nat.not_lt.mpr hkey), if_neg (by simp [hec])]
    simp only [hmeta, hfanout]
  by_cases hsize : env.skyfileLayoutSize + mbytes.length + fbytes.length > env.sectorSize
  · rw [hrun, if_pos hsize]
    exact ⟨⟨fun _ => hsize, fun _ => rfl⟩,
      fun _ => ⟨by simp, by simp⟩⟩
  · rw [hrun, if_neg hsize]
    refine ⟨⟨fun h => absurd h (createSkylinkTail_no_metadataTooBig env _), ?_⟩,
      fun h => absurd h hsize⟩
    intro h
    exact absurd h hsize

/-- An environment for the concrete too-big example: sector size 10, layout
size 8, three bytes of metadata and no fanout. -/
def tooBigEnv : SkyfileEnv where
  sectorSize := 10
  skyfileLayoutSize := 8
  validMetadata := true
  fileNodeBlocked := false
  masterKeyLen := 0
  keyDataLen := 1
  ecTypeOK := true
  metadataBytes := .ok [1, 2, 3]
  fanoutBytes := .ok []
  encryptionEnabled := false
  encryptOK := true
  newSkylink := .ok 7
  dryRun := false
  skylinkBlocked := false
  addSkylinkOK := true
  uploadOK := true

/-- Concrete exercise of `skyfile_metadata_too_big`: layout 8 plus metadata
3 exceeds sector size 10, so creation fails with metadata-too-big and
performs no build or upload. -/
theorem skyfile_metadata_too_big_witness :
    ((managedCreateSkylinkFromFileNode tooBigEnv).1 = .error .metadataTooBig
      ↔ tooBigEnv.skyfileLayoutSize + 3 + 0 > tooBigEnv.sectorSize)
    ∧ (tooBigEnv.skyfileLayoutSize + 3 + 0 > tooBigEnv.sectorSize →
        SkyEffect.buildBaseSector ∉ (managedCreateSkylinkFromFileNode tooBigEnv).2
        ∧ SkyEffect.uploadBaseSector ∉ (managedCreateSkylinkFromFileNode tooBigEnv).2) := by
  have h := skyfile_metadata_too_big tooBigEnv [1, 2, 3] []
    rfl rfl (by decide) rfl rfl rfl
  exact h

/-! ## Block templates and Merkle branches (src/types/block.go) -/

/-- The free hash algebra standing for the external domain-separated hash of
the Merkle tree builder: a leaf hash of a byte string or an internal node
over two subtree hashes (the spec's Merkle engine, section 4.B). The hex
encoding applied to each subtree sum is an injective formatting and is
left implicit. -/
inductive BHash where
  | leaf (bytes : List Nat)
  | node (left right : BHash)
deriving DecidableEq

/-- Go's `types.Transaction`, restricted to what the block code reads: its
ID and its Sia-marshalled byte encoding, both produced by external
packages and therefore carried as data. -/
structure Transaction where
  idNat : Nat
  marshalBytes : List Nat
deriving DecidableEq

/-- Modelled from the spec: the Sia-marshalled encoding of a siacoin output
(the encoding package is external); an injective encoding of value and
unlock hash. -/
def marshalPayout (p : SiacoinOutput) : List Nat :=
  [p.value, p.unlockHash]

/-- Go's `types.Block`, restricted to the fields `BlockTemplate` and
`MerkleBranches` read. -/
structure Block where
  parentID : Nat
  nonce : Nat
  timestamp : Nat
  minerPayouts : List SiacoinOutput
  transactions : List Transaction
deriving DecidableEq

/-- Go's `types.BlockTemplate` struct. -/
structure BlockTemplate where
  parentID : Nat
  nonce : Nat
  timestamp : Nat
  minerPayouts : List SiacoinOutput
  transactions : List Nat
  target : Nat
  merkleBranches : List BHash
  height : Nat
deriving DecidableEq

/-- Modelled from the spec: the subtree stack of the external Merkle tree
builder (`crypto.NewTree`). Pushing a leaf adds a height-0 subtree and
repeatedly merges equal-height neighbours (the older subtree on the left),
keeping the newest subtree at the head; the spec's design notes describe
exposing this stack as `branches()` (section 9). -/
def pushSubTree : (Nat × BHash) → List (Nat × BHash) → List (Nat × BHash)
  | st, [] => [st]
  | (h, s), (h', s') :: rest =>
    if h = h' then pushSubTree (h + 1, .node s' s) rest
    else (h, s) :: (h', s') :: rest

/-- Push one marshalled leaf into the tree builder's subtree stack. -/
def treePush (stack : List (Nat × BHash)) (b : List Nat) : List (Nat × BHash) :=
  pushSubTree (0, .leaf b) stack

/-- Go's `(Block).MerkleBranches`: push the marshalled miner payouts and
then the marshalled transactions into a Merkle tree builder, then walk the
builder's subtree list from the head collecting each subtree sum. -/
def merkleBranchesOf (b : Block) : List BHash :=
  (((b.minerPayouts.map marshalPayout)
    ++ (b.transactions.map Transaction.marshalBytes)).foldl treePush []).map Prod.snd

/-- Go's `(Block).BlockTemplate`: copies the header fields, payouts and
transaction ids; Target, MerkleBranches and Height keep their zero values
because the `MerkleBranches: b.MerkleBranches()` assignment is commented
out in the source. -/
def blockTemplateOf (b : Block) : BlockTemplate where
  parentID := b.parentID
  nonce := b.nonce
  timestamp := b.timestamp
  minerPayouts := b.minerPayouts
  transactions := b.transactions.map Transaction.idNat
  target := 0
  merkleBranches := []
  height := 0

/-! ## Claim C7: the template's Merkle branches -/

/-- A block with a single miner payout and no transactions. -/
def onePayoutBlock : Block where
  parentID := 0
  nonce := 0
  timestamp := 0
  minerPayouts := [⟨5, 7⟩]
  transactions := []

/-- Claim C7 names a defect of the code: the spec requires the delivered
block template's MerkleBranches field to equal `b.MerkleBranches()`, but
`BlockTemplate()` leaves the field at its zero value because the
assignment is commented out; on a block with one miner payout the
template's field is empty while `MerkleBranches()` returns the one
subtree hash. -/
theorem blockTemplate_branches_missing :
    (blockTemplateOf onePayoutBlock).merkleBranches = []
    ∧ merkleBranchesOf onePayoutBlock = [BHash.leaf [5, 7]]
    ∧ (blockTemplateOf onePayoutBlock).merkleBranches ≠ merkleBranchesOf onePayoutBlock :=
  ⟨rfl, rfl, by decide⟩
